/-
Verification of the financial-analytics ingestion pipeline
(`src/data_fetcher.py`, `src/database.py`, `src/main.py`).

Shallow embedding conventions:
* Python exceptions raised by a lookup or numeric coercion are embedded as
  `Option`-valued fields/results (`none` = the lookup/coercion raised).
* A calendar date (`datetime.strptime(date_str, "%Y-%m-%d")`) is embedded as a
  `Nat` ordinal; only equality and order on dates matter to the pipeline.
* Prices (Python `float(...)` of decimal strings) are embedded as `ℚ`;
  volumes (`int(...)`) as `Int`; `datetime.now()` timestamps as a `Nat`
  parameter `now` (nothing in the pipeline reads them back).
* The SQLAlchemy session is embedded as the list of committed rows plus the
  pending (added, uncommitted) rows; `session.query(...).first()` sees both
  (autoflush), `commit` moves pending to committed, `rollback` drops pending.
-/
import Mathlib

namespace Pipeline

/-- One parsed record, as built by `StockDataFetcher.parse_stock_data`
(`data_fetcher.py` lines 65–74), and equally one persisted `StockPrice` row
(`database.py` lines 19–34; the autoincrement `id` plays no role). -/
structure Record where
  symbol : String
  date : Nat
  open_price : ℚ
  high_price : ℚ
  low_price : ℚ
  close_price : ℚ
  volume : Int
  created_at : Nat
deriving Repr, DecidableEq

/-- One raw day-entry of the provider's `"Time Series (Daily)"` object, after
the Python lookups and coercions of `parse_stock_data`.  Each field holds the
result of the corresponding lookup-plus-coercion
(`float(values["1. open"])`, …, `int(values["5. volume"])`, and
`datetime.strptime(date_str, "%Y-%m-%d")` for the dict key); `none` means the
lookup raised `KeyError` or the coercion raised `ValueError`. -/
structure RawDay where
  date_v : Option Nat
  open_v : Option ℚ
  high_v : Option ℚ
  low_v : Option ℚ
  close_v : Option ℚ
  volume_v : Option Int
deriving Repr, DecidableEq

/-- The `try` body of `parse_stock_data` for one day-entry
(`data_fetcher.py` lines 64–78): builds the record when every lookup and
coercion succeeds, and returns `none` (the `except (KeyError, ValueError)`
branch: log and `continue`) otherwise. -/
def parseRecord (symbol : String) (now : Nat) (e : RawDay) : Option Record :=
  match e.date_v, e.open_v, e.high_v, e.low_v, e.close_v, e.volume_v with
  | some d, some o, some h, some l, some c, some v =>
      some { symbol := symbol, date := d, open_price := o, high_price := h,
             low_price := l, close_price := c, volume := v, created_at := now }
  | _, _, _, _, _, _ => none

/-- `StockDataFetcher.parse_stock_data` (`data_fetcher.py` lines 60–81):
parses each day-entry independently, keeping the successes in input order. -/
def parse_stock_data (symbol : String) (now : Nat) (ts : List RawDay) :
    List Record :=
  ts.filterMap (parseRecord symbol now)

/-- Helper: the number of successfully parsed entries plus the number of
failing entries is the series length. -/
theorem parse_length_add_failures (symbol : String) (now : Nat)
    (ts : List RawDay) :
    (parse_stock_data symbol now ts).length
      + ts.countP (fun e => !(parseRecord symbol now e).isSome) = ts.length := by
  induction ts with
  | nil => simp [parse_stock_data]
  | cons e rest ih =>
    simp only [parse_stock_data, List.filterMap_cons, List.countP_cons] at *
    cases h : parseRecord symbol now e <;>
      simp [h, Option.isSome] at * <;> omega

/-- Helper: an entry parses successfully iff none of its lookups/coercions
failed. -/
theorem parseRecord_isSome (symbol : String) (now : Nat) (e : RawDay) :
    (parseRecord symbol now e).isSome =
      (e.date_v.isSome && e.open_v.isSome && e.high_v.isSome &&
       e.low_v.isSome && e.close_v.isSome && e.volume_v.isSome) := by
  rcases e with ⟨d, o, h, l, c, v⟩
  cases d <;> cases o <;> cases h <;> cases l <;> cases c <;> cases v <;>
    rfl

/-- C6: for every symbol and every raw series of N day-entries in which
exactly one entry has a non-numeric or missing field (exactly one entry's
lookups/coercions fail), `parse_stock_data` returns exactly N−1 records; the
failing entry is dropped and no error propagates (the function is total). -/
theorem C6_parser_isolation (symbol : String) (now : Nat) (ts : List RawDay)
    (h : ts.countP (fun e => !(parseRecord symbol now e).isSome) = 1) :
    (parse_stock_data symbol now ts).length = ts.length - 1 := by
  have := parse_length_add_failures symbol now ts
  omega

/-- Concrete three-entry series used by the C6 witness; the middle entry has
a non-numeric close field. -/
def seriesC6 : List RawDay :=
  [⟨some 1, some 10, some 11, some 9, some 10, some 100⟩,
   ⟨some 2, some 10, some 11, some 9, none, some 100⟩,
   ⟨some 3, some 10, some 11, some 9, some 10, some 100⟩]

/-- C6 witness: a three-entry series whose middle entry has a non-numeric
close field yields exactly two records. -/
theorem C6_parser_isolation_witness :
    seriesC6.countP (fun e => !(parseRecord "AAPL" 0 e).isSome) = 1 ∧
    (parse_stock_data "AAPL" 0 seriesC6).length = seriesC6.length - 1 :=
  ⟨by decide, C6_parser_isolation "AAPL" 0 seriesC6 (by decide)⟩

/-- C9: every record returned by the parser carries the symbol argument the
parser was called with; the parser never attributes a record to a different
symbol (`record["symbol"] = symbol`, `data_fetcher.py` line 66). -/
theorem C9_parser_symbol (symbol : String) (now : Nat) (ts : List RawDay)
    (r : Record) (hr : r ∈ parse_stock_data symbol now ts) :
    r.symbol = symbol := by
  rcases List.mem_filterMap.mp hr with ⟨e, _, he⟩
  rcases e with ⟨d, o, h, l, c, v⟩
  cases d <;> cases o <;> cases h <;> cases l <;> cases c <;> cases v <;>
    simp [parseRecord] at he
  exact he ▸ rfl

/-- Concrete record used by the C9 witness. -/
def recC9 : Record :=
  { symbol := "IBM", date := 5, open_price := 1, high_price := 2,
    low_price := 1, close_price := 2, volume := 7, created_at := 0 }

/-- Concrete one-entry series used by the C9 witness. -/
def seriesC9 : List RawDay := [⟨some 5, some 1, some 2, some 1, some 2, some 7⟩]

/-- C9 witness: the single record parsed from a one-entry series for
symbol IBM carries symbol IBM. -/
theorem C9_parser_symbol_witness :
    recC9 ∈ parse_stock_data "IBM" 0 seriesC9 ∧ recC9.symbol = "IBM" :=
  ⟨by decide, C9_parser_symbol "IBM" 0 seriesC9 recC9 (by decide)⟩

/-- The JSON payload of a completed provider HTTP response, reduced to the
three keys `fetch_daily_data` inspects: `"Error Message"`, `"Note"`, and
`"Time Series (Daily)"` (`data_fetcher.py` lines 40–52; `spec.md` §6 gives
these as the only response shapes). -/
structure Payload where
  errorMsg : Option String
  note : Option String
  timeSeries : Option (List RawDay)
deriving Repr, DecidableEq

/-- Outcome of the HTTP layer for one request: either some exception from
`requests.get` / `raise_for_status` / `.json()` (the `except Exception`
branch of `fetch_daily_data`), or a decoded payload. -/
inductive FetchOutcome where
  | transportFail
  | ok (p : Payload)
deriving Repr, DecidableEq

/-- `StockDataFetcher.fetch_daily_data` (`data_fetcher.py` lines 26–58) as a
function of the HTTP outcome: checks `"Error Message"`, then `"Note"`, then
requires `"Time Series (Daily)"`; every failure path returns `None`. -/
def fetch_daily_data (r : FetchOutcome) : Option (List RawDay) :=
  match r with
  | .transportFail => none
  | .ok p =>
    match p.errorMsg with
    | some _ => none
    | none =>
      match p.note with
      | some _ => none
      | none => p.timeSeries

/-- Python truthiness of the `fetch_daily_data` result as tested by
`if time_series:` in `fetch_multiple_symbols`: `None` and the empty dict are
falsy. -/
def fetchTruthy (o : Option (List RawDay)) : Bool :=
  match o with
  | some (_ :: _) => true
  | _ => false

/-- Python dict assignment `all_data[symbol] = v`: replaces the value at an
existing key in place, otherwise appends the binding. -/
def dictInsert (k : String) (v : List Record) :
    List (String × List Record) → List (String × List Record)
  | [] => [(k, v)]
  | (k', v') :: rest =>
      if k' = k then (k, v) :: rest else (k', v') :: dictInsert k v rest

/-- The `for i, symbol in enumerate(symbols)` loop of
`StockDataFetcher.fetch_multiple_symbols` (`data_fetcher.py` lines 86–100),
threading the provider `env`, the enumeration index `i`, the dict `acc`, and
additionally counting the `time.sleep(delay)` calls, which happen only in the
success branch and only while `i < len(symbols) - 1`. -/
def fetchLoop (env : String → FetchOutcome) (now total : Nat) :
    Nat → List String → List (String × List Record) →
      List (String × List Record) × Nat
  | _, [], acc => (acc, 0)
  | i, symbol :: rest, acc =>
      if fetchTruthy (fetch_daily_data (env symbol)) then
        let parsed :=
          parse_stock_data symbol now ((fetch_daily_data (env symbol)).getD [])
        let r := fetchLoop env now total (i + 1) rest (dictInsert symbol parsed acc)
        (r.1, (if i < total - 1 then 1 else 0) + r.2)
      else
        fetchLoop env now total (i + 1) rest (dictInsert symbol [] acc)

/-- `StockDataFetcher.fetch_multiple_symbols` (`data_fetcher.py` lines
83–102): the returned dict together with the number of inter-request sleeps
performed. -/
def fetch_multiple_symbols (env : String → FetchOutcome) (now : Nat)
    (symbols : List String) : List (String × List Record) × Nat :=
  fetchLoop env now symbols.length 0 symbols []

/-- The value `fetch_multiple_symbols` binds to one symbol: the parse of its
fetched series on success, the empty list on any fetch failure. -/
def fetchParseOne (env : String → FetchOutcome) (now : Nat)
    (symbol : String) : List Record :=
  if fetchTruthy (fetch_daily_data (env symbol)) then
    parse_stock_data symbol now ((fetch_daily_data (env symbol)).getD [])
  else []

/-- C5 counterexample: the single-symbol fetch maps a rate-limit `"Note"`
payload, an `"Error Message"` payload, and a transport failure all to the
same untyped sentinel `None`, so the caller cannot distinguish the three
failure kinds from the result, refuting the typed-classification part of the
claim. -/
theorem C5_counterexample :
    fetch_daily_data (.ok ⟨none, some "rate limit reached", none⟩) = none ∧
    fetch_daily_data (.ok ⟨some "invalid symbol", none, none⟩) = none ∧
    fetch_daily_data .transportFail = none ∧
    fetch_daily_data (.ok ⟨none, some "rate limit reached", none⟩) =
      fetch_daily_data (.ok ⟨some "invalid symbol", none, none⟩) ∧
    fetch_daily_data (.ok ⟨some "invalid symbol", none, none⟩) =
      fetch_daily_data .transportFail :=
  ⟨rfl, rfl, rfl, rfl, rfl⟩

/-- C5 amended: the single-symbol fetch always returns an explicit result
and never raises (it is a total function of the HTTP outcome), and it
succeeds exactly on a payload with no `"Error Message"`, no `"Note"`, and a
`"Time Series (Daily)"` key; every failure kind — rate limit, error payload,
unrecognized shape, transport failure — collapses to the same sentinel
`None`, distinguishable from success but not from each other. -/
theorem C5_fetch_sentinel (r : FetchOutcome) :
    ∀ ts : List RawDay,
      fetch_daily_data r = some ts ↔ r = FetchOutcome.ok ⟨none, none, some ts⟩ := by
  intro ts
  cases r with
  | transportFail => simp [fetch_daily_data]
  | ok p =>
    rcases p with ⟨em, no, tso⟩
    cases em <;> cases no <;> simp [fetch_daily_data]

/-- Helper: one step of the fetch loop when the fetch for the head symbol is
truthy. -/
theorem fetchLoop_cons_true (env : String → FetchOutcome) (now total i : Nat)
    (s : String) (rest : List String) (acc : List (String × List Record))
    (h : fetchTruthy (fetch_daily_data (env s)) = true) :
    fetchLoop env now total i (s :: rest) acc =
      ((fetchLoop env now total (i + 1) rest
          (dictInsert s
            (parse_stock_data s now ((fetch_daily_data (env s)).getD [])) acc)).1,
       (if i < total - 1 then 1 else 0) +
         (fetchLoop env now total (i + 1) rest
           (dictInsert s
             (parse_stock_data s now ((fetch_daily_data (env s)).getD [])) acc)).2) := by
  simp [fetchLoop, h]

/-- Helper: one step of the fetch loop when the fetch for the head symbol is
falsy (failure or empty series). -/
theorem fetchLoop_cons_false (env : String → FetchOutcome) (now total i : Nat)
    (s : String) (rest : List String) (acc : List (String × List Record))
    (h : fetchTruthy (fetch_daily_data (env s)) = false) :
    fetchLoop env now total i (s :: rest) acc =
      fetchLoop env now total (i + 1) rest (dictInsert s [] acc) := by
  simp [fetchLoop, h]

/-- Helper: number of sleeps performed by the fetch loop started at index
`i`: one for each entry among the first `total - 1 - i` whose fetch is
truthy. -/
theorem fetchLoop_sleeps (env : String → FetchOutcome) (now total : Nat)
    (syms : List String) :
    ∀ (i : Nat) (acc : List (String × List Record)),
    (fetchLoop env now total i syms acc).2 =
      ((syms.take (total - 1 - i)).countP
        (fun s => fetchTruthy (fetch_daily_data (env s)))) := by
  induction syms with
  | nil => intro i acc; simp [fetchLoop]
  | cons s rest ih =>
    intro i acc
    by_cases h : fetchTruthy (fetch_daily_data (env s))
    · rw [fetchLoop_cons_true env now total i s rest acc h, ih]
      rcases Nat.lt_or_ge i (total - 1) with hi | hi
      · have h1 : total - 1 - i = (total - 1 - (i + 1)) + 1 := by omega
        rw [h1, List.take_succ_cons, List.countP_cons]
        simp [h, hi]
        omega
      · have h1 : total - 1 - i = 0 := by omega
        have h2 : total - 1 - (i + 1) = 0 := by omega
        rw [h1, h2]
        simp
        omega
    · rw [fetchLoop_cons_false env now total i s rest acc (by simpa using h), ih]
      rcases Nat.eq_zero_or_pos (total - 1 - i) with h1 | h1
      · have h2 : total - 1 - (i + 1) = 0 := by omega
        rw [h1, h2]
        simp
      · have h2 : total - 1 - i = (total - 1 - (i + 1)) + 1 := by omega
        rw [h2, List.take_succ_cons, List.countP_cons]
        simp [h]

/-- C4 counterexample: for the two-symbol batch `["A", "B"]` in which the
fetch for `"A"` fails with a rate-limit note and the fetch for `"B"`
succeeds, the batch performs 0 inter-request delays, not N−1 = 1: the sleep
is executed only after a successful fetch, so the spacing does not hold
regardless of individual fetch failures. -/
theorem C4_counterexample :
    (fetch_multiple_symbols
        (fun s => if s = "A" then FetchOutcome.ok ⟨none, some "limit", none⟩
                  else FetchOutcome.ok
                    ⟨none, none, some [⟨some 1, some 10, some 11, some 9, some 10, some 100⟩]⟩)
        0 ["A", "B"]).2 = 0 ∧
    (["A", "B"] : List String).length - 1 = 1 :=
  ⟨by decide, rfl⟩

/-- C4 amended: for a batch of N symbols the number of inter-request delays
equals the number of symbols among the first N−1 whose fetch succeeded with
a nonempty series; no delay ever follows the final symbol, and no delay
follows a failed (or empty) fetch. -/
theorem C4_throttle_spacing (env : String → FetchOutcome) (now : Nat)
    (symbols : List String) :
    (fetch_multiple_symbols env now symbols).2 =
      ((symbols.take (symbols.length - 1)).countP
        (fun s => fetchTruthy (fetch_daily_data (env s)))) := by
  have h := fetchLoop_sleeps env now symbols.length symbols 0 []
  simpa [fetch_multiple_symbols] using h

/-- Helper: looking up the key just assigned in the dict yields the assigned
value. -/
theorem lookup_dictInsert_self (k : String) (v : List Record)
    (d : List (String × List Record)) :
    List.lookup k (dictInsert k v d) = some v := by
  induction d with
  | nil => simp [dictInsert, List.lookup_cons, beq_iff_eq]
  | cons p rest ih =>
    rcases p with ⟨k', v'⟩
    by_cases h : k' = k
    · simp [dictInsert, h, List.lookup_cons, beq_iff_eq]
    · have hb : (k == k') = false := beq_eq_false_iff_ne.mpr (Ne.symm h)
      simp only [dictInsert, h, if_false, List.lookup_cons, hb]
      exact ih

/-- Helper: assigning a different key leaves a lookup unchanged. -/
theorem lookup_dictInsert_ne (k k' : String) (v : List Record)
    (d : List (String × List Record)) (h : k ≠ k') :
    List.lookup k (dictInsert k' v d) = List.lookup k d := by
  have hb : (k == k') = false := beq_eq_false_iff_ne.mpr h
  induction d with
  | nil => simp [dictInsert, List.lookup_cons, hb]
  | cons p rest ih =>
    rcases p with ⟨k'', v''⟩
    by_cases h2 : k'' = k'
    · subst h2
      simp only [dictInsert, if_true, List.lookup_cons, hb]
    · by_cases h3 : k = k''
      · subst h3
        simp [dictInsert, h2, List.lookup_cons, beq_iff_eq]
      · have hb3 : (k == k'') = false := beq_eq_false_iff_ne.mpr h3
        simp only [dictInsert, h2, if_false, List.lookup_cons, hb3]
        exact ih

/-- Helper: the fetch loop never touches the binding of a symbol that is not
in its remaining worklist. -/
theorem fetchLoop_lookup_not_mem (env : String → FetchOutcome)
    (now total : Nat) (s : String) (syms : List String) :
    ∀ (i : Nat) (acc : List (String × List Record)), s ∉ syms →
      List.lookup s (fetchLoop env now total i syms acc).1 =
        List.lookup s acc := by
  induction syms with
  | nil => intro i acc _; simp [fetchLoop]
  | cons t rest ih =>
    intro i acc hs
    have hst : s ≠ t := fun h => hs (h ▸ List.mem_cons_self t rest)
    have hsr : s ∉ rest := fun h => hs (List.mem_cons_of_mem t h)
    by_cases h : fetchTruthy (fetch_daily_data (env t))
    · rw [fetchLoop_cons_true env now total i t rest acc h]
      rw [ih (i + 1) _ hsr, lookup_dictInsert_ne s t _ acc hst]
    · rw [fetchLoop_cons_false env now total i t rest acc (by simpa using h)]
      rw [ih (i + 1) _ hsr, lookup_dictInsert_ne s t _ acc hst]

/-- Helper: for a duplicate-free worklist, the final dict binds every listed
symbol to its fetch-and-parse result (empty on fetch failure). -/
theorem fetchLoop_lookup_mem (env : String → FetchOutcome)
    (now total : Nat) (s : String) (syms : List String) :
    ∀ (i : Nat) (acc : List (String × List Record)),
      s ∈ syms → syms.Nodup →
      List.lookup s (fetchLoop env now total i syms acc).1 =
        some (fetchParseOne env now s) := by
  induction syms with
  | nil => intro i acc hs _; exact absurd hs (List.not_mem_nil s)
  | cons t rest ih =>
    intro i acc hs hnd
    have hndr : rest.Nodup := (List.nodup_cons.mp hnd).2
    by_cases hst : s = t
    · subst hst
      have hsr : s ∉ rest := (List.nodup_cons.mp hnd).1
      by_cases h : fetchTruthy (fetch_daily_data (env s))
      · rw [fetchLoop_cons_true env now total i s rest acc h]
        rw [fetchLoop_lookup_not_mem env now total s rest (i + 1) _ hsr]
        rw [lookup_dictInsert_self]
        simp [fetchParseOne, h]
      · rw [fetchLoop_cons_false env now total i s rest acc (by simpa using h)]
        rw [fetchLoop_lookup_not_mem env now total s rest (i + 1) _ hsr]
        rw [lookup_dictInsert_self]
        simp [fetchParseOne, h]
    · have hsr : s ∈ rest := by
        rcases List.mem_cons.mp hs with h | h
        · exact absurd h hst
        · exact h
      by_cases h : fetchTruthy (fetch_daily_data (env t))
      · rw [fetchLoop_cons_true env now total i t rest acc h]
        exact ih (i + 1) _ hsr hndr
      · rw [fetchLoop_cons_false env now total i t rest acc (by simpa using h)]
        exact ih (i + 1) _ hsr hndr

/-- C7: for every duplicate-free symbol list, the batch fetch returns a dict
with an entry for every requested symbol — a failure for one symbol never
prevents the remaining symbols from being attempted and bound — and a symbol
whose fetch fails (for example a rate-limit soft error) is bound to the
empty point list. -/
theorem C7_fetch_isolation (env : String → FetchOutcome) (now : Nat)
    (symbols : List String) (s : String)
    (h1 : symbols.Nodup) (h2 : s ∈ symbols) :
    List.lookup s (fetch_multiple_symbols env now symbols).1 =
      some (fetchParseOne env now s) ∧
    (fetchTruthy (fetch_daily_data (env s)) = false →
      fetchParseOne env now s = []) := by
  constructor
  · exact fetchLoop_lookup_mem env now symbols.length s symbols 0 [] h2 h1
  · intro h
    simp [fetchParseOne, h]

/-- Provider environment for the C7 witness: the fetch for `"B"` hits a
rate-limit note, the others succeed. -/
def envC7 : String → FetchOutcome := fun s =>
  if s = "B" then FetchOutcome.ok ⟨none, some "limit", none⟩
  else FetchOutcome.ok
    ⟨none, none, some [⟨some 1, some 10, some 11, some 9, some 10, some 100⟩]⟩

/-- C7 witness: in the batch `["A", "B", "C"]` where only `"B"` fails, the
returned dict still binds `"B"`, and binds it to the empty list. -/
theorem C7_fetch_isolation_witness :
    (["A", "B", "C"] : List String).Nodup ∧
    "B" ∈ (["A", "B", "C"] : List String) ∧
    List.lookup "B" (fetch_multiple_symbols envC7 0 ["A", "B", "C"]).1 =
      some [] := by
  refine ⟨by decide, by decide, ?_⟩
  rw [(C7_fetch_isolation envC7 0 ["A", "B", "C"] "B" (by decide) (by decide)).1]
  decide

/-- The existence probe
`session.query(StockPrice).filter_by(symbol=..., date=...).first()`
(`main.py` lines 56–59) over the rows visible to the session — the committed
rows plus the session's own pending adds (SQLAlchemy autoflush). -/
def hasKey (db : List Record) (symbol : String) (date : Nat) : Bool :=
  db.any (fun a => a.symbol == symbol && a.date == date)

/-- The inner `for record in records` loop of
`FinancialAnalyticsPipeline.fetch_and_store_data` (`main.py` lines 55–67)
over one symbol's records: an existing `(symbol, date)` key is counted as
skipped and left untouched, otherwise the record is added and counted as
stored.  `db` is the session-visible row list (committed plus pending). -/
def upsertLoop (db : List Record) (records : List Record)
    (stored skipped : Nat) : List Record × Nat × Nat :=
  match records with
  | [] => (db, stored, skipped)
  | r :: rest =>
      if hasKey db r.symbol r.date then
        upsertLoop db rest stored (skipped + 1)
      else
        upsertLoop (db ++ [r]) rest (stored + 1) skipped

/-- The outer `for symbol, records in all_data.items()` loop of
`fetch_and_store_data` (`main.py` lines 52–70) in a run where every
`session.commit()` succeeds: after each symbol's batch the pending rows
become committed, so the visible row list simply carries over. -/
def fetch_and_store_loop (db : List Record)
    (items : List (String × List Record)) (stored skipped : Nat) :
    List Record × Nat × Nat :=
  match items with
  | [] => (db, stored, skipped)
  | (_, records) :: rest =>
      let r := upsertLoop db records stored skipped
      fetch_and_store_loop r.1 rest r.2.1 r.2.2

/-- Result of `fetch_and_store_data`: either `True` with the final committed
rows and the two counters, or `False` (the `except` branch: rollback of the
pending rows, `main.py` lines 78–81) with the rows committed before the
failure. -/
inductive StoreResult where
  | ok (db : List Record) (stored skipped : Nat)
  | failed (db : List Record)
deriving Repr, DecidableEq

/-- `fetch_and_store_data` with a commit oracle: `commitOk i` tells whether
the `session.commit()` ending the `i`-th symbol's batch succeeds.  On a
commit failure the `except` branch rolls back the current symbol's pending
adds — the committed rows `db` are unchanged — and returns `False`;
no further symbol is processed. -/
def fetch_and_store_failable (commitOk : Nat → Bool) (db : List Record)
    (i : Nat) (items : List (String × List Record)) (stored skipped : Nat) :
    StoreResult :=
  match items with
  | [] => .ok db stored skipped
  | (_, records) :: rest =>
      let r := upsertLoop db records stored skipped
      if commitOk i then
        fetch_and_store_failable commitOk r.1 (i + 1) rest r.2.1 r.2.2
      else
        .failed db

/-- `FinancialAnalyticsPipeline.run` (`main.py` lines 143–162) as a function
of the phase outcomes: an aborted setup or an ingest phase that returned
`False` makes the run return `False` (the process then exits nonzero, lines
165–170); the report phase never changes the result. -/
def runPipeline (setupOk : Bool) (ingest : StoreResult) : Bool :=
  if !setupOk then false
  else
    match ingest with
    | .failed _ => false
    | .ok _ _ _ => true

/-- Total number of parsed records across all symbols of the input
mapping. -/
def totalRecords (items : List (String × List Record)) : Nat :=
  (items.map (fun p => p.2.length)).sum

/-- Helper: the upsert loop only appends rows. -/
theorem upsertLoop_grows (records : List Record) :
    ∀ (db : List Record) (stored skipped : Nat),
      ∃ t, (upsertLoop db records stored skipped).1 = db ++ t := by
  induction records with
  | nil => intro db stored skipped; exact ⟨[], by simp [upsertLoop]⟩
  | cons r rest ih =>
    intro db stored skipped
    by_cases h : hasKey db r.symbol r.date
    · simpa [upsertLoop, h] using ih db stored (skipped + 1)
    · rcases ih (db ++ [r]) (stored + 1) skipped with ⟨t, ht⟩
      exact ⟨[r] ++ t, by simp [upsertLoop, h, ht]⟩

/-- Helper: a key present in the visible rows stays present as they grow. -/
theorem hasKey_append_left (db t : List Record) (symbol : String) (date : Nat)
    (h : hasKey db symbol date = true) :
    hasKey (db ++ t) symbol date = true := by
  simp only [hasKey, List.any_append, Bool.or_eq_true]
  exact Or.inl h

/-- Helper: after the upsert loop, every processed record's key is present in
the visible rows. -/
theorem upsertLoop_hasKey (records : List Record) :
    ∀ (db : List Record) (stored skipped : Nat) (r : Record), r ∈ records →
      hasKey (upsertLoop db records stored skipped).1 r.symbol r.date = true := by
  induction records with
  | nil => intro db stored skipped r hr; exact absurd hr (List.not_mem_nil r)
  | cons q rest ih =>
    intro db stored skipped r hr
    by_cases h : hasKey db q.symbol q.date
    · rcases List.mem_cons.mp hr with hq | hq
      · subst hq
        rw [upsertLoop, if_pos h]
        rcases upsertLoop_grows rest db stored (skipped + 1) with ⟨t, ht⟩
        rw [ht]
        exact hasKey_append_left db t r.symbol r.date h
      · rw [upsertLoop, if_pos h]
        exact ih db stored (skipped + 1) r hq
    · rcases List.mem_cons.mp hr with hq | hq
      · subst hq
        rw [upsertLoop, if_neg h]
        rcases upsertLoop_grows rest (db ++ [r]) (stored + 1) skipped with ⟨t, ht⟩
        rw [ht]
        apply hasKey_append_left
        simp [hasKey]
      · rw [upsertLoop, if_neg h]
        exact ih (db ++ [q]) (stored + 1) skipped r hq

/-- Helper: when every record's key is already present, the upsert loop
leaves the rows unchanged, stores nothing and skips everything. -/
theorem upsertLoop_all_present (records : List Record) :
    ∀ (db : List Record) (stored skipped : Nat),
      (∀ r ∈ records, hasKey db r.symbol r.date = true) →
      upsertLoop db records stored skipped =
        (db, stored, skipped + records.length) := by
  induction records with
  | nil => intro db stored skipped _; simp [upsertLoop]
  | cons r rest ih =>
    intro db stored skipped hall
    have hr : hasKey db r.symbol r.date = true :=
      hall r (List.mem_cons_self r rest)
    rw [upsertLoop, if_pos hr,
      ih db stored (skipped + 1) (fun q hq => hall q (List.mem_cons_of_mem r hq))]
    simp [Nat.add_assoc, Nat.add_comm 1 rest.length]

/-- Helper: the upsert loop's two counters advance by exactly the batch
length. -/
theorem upsertLoop_counts (records : List Record) :
    ∀ (db : List Record) (stored skipped : Nat),
      (upsertLoop db records stored skipped).2.1 +
        (upsertLoop db records stored skipped).2.2 =
        stored + skipped + records.length := by
  induction records with
  | nil => intro db stored skipped; simp [upsertLoop]
  | cons r rest ih =>
    intro db stored skipped
    by_cases h : hasKey db r.symbol r.date
    · rw [upsertLoop, if_pos h, ih]
      simp only [List.length_cons]
      omega
    · rw [upsertLoop, if_neg h, ih]
      simp only [List.length_cons]
      omega

/-- Helper: the whole storage phase only appends rows. -/
theorem fetch_and_store_loop_grows (items : List (String × List Record)) :
    ∀ (db : List Record) (stored skipped : Nat),
      ∃ t, (fetch_and_store_loop db items stored skipped).1 = db ++ t := by
  induction items with
  | nil => intro db stored skipped; exact ⟨[], by simp [fetch_and_store_loop]⟩
  | cons p rest ih =>
    intro db stored skipped
    rcases p with ⟨sym, records⟩
    rw [fetch_and_store_loop]
    rcases upsertLoop_grows records db stored skipped with ⟨t1, ht1⟩
    rcases ih (upsertLoop db records stored skipped).1
        (upsertLoop db records stored skipped).2.1
        (upsertLoop db records stored skipped).2.2 with ⟨t2, ht2⟩
    exact ⟨t1 ++ t2, by rw [ht2, ht1, List.append_assoc]⟩

/-- Helper: after the storage phase, every processed record's key is present
in the rows. -/
theorem fetch_and_store_loop_hasKey (items : List (String × List Record)) :
    ∀ (db : List Record) (stored skipped : Nat),
      ∀ p ∈ items, ∀ r ∈ p.2,
      hasKey (fetch_and_store_loop db items stored skipped).1
        r.symbol r.date = true := by
  induction items with
  | nil => intro db stored skipped p hp; exact absurd hp (List.not_mem_nil p)
  | cons q rest ih =>
    intro db stored skipped p hp r hr
    rcases q with ⟨sym, records⟩
    rw [fetch_and_store_loop]
    rcases List.mem_cons.mp hp with hq | hq
    · subst hq
      rcases fetch_and_store_loop_grows rest
          (upsertLoop db records stored skipped).1
          (upsertLoop db records stored skipped).2.1
          (upsertLoop db records stored skipped).2.2 with ⟨t, ht⟩
      rw [ht]
      exact hasKey_append_left _ t r.symbol r.date
        (upsertLoop_hasKey records db stored skipped r hr)
    · exact ih _ _ _ p hq r hr

/-- Helper: when every record's key of every batch is already present, the
storage phase changes nothing and skips every record. -/
theorem fetch_and_store_loop_all_present (items : List (String × List Record)) :
    ∀ (db : List Record) (stored skipped : Nat),
      (∀ p ∈ items, ∀ r ∈ p.2, hasKey db r.symbol r.date = true) →
      fetch_and_store_loop db items stored skipped =
        (db, stored, skipped + totalRecords items) := by
  induction items with
  | nil => intro db stored skipped _; simp [fetch_and_store_loop, totalRecords]
  | cons q rest ih =>
    intro db stored skipped hall
    rcases q with ⟨sym, records⟩
    rw [fetch_and_store_loop]
    rw [upsertLoop_all_present records db stored skipped
      (fun r hr => hall (sym, records) (List.mem_cons_self _ _) r hr)]
    rw [ih db stored (skipped + records.length)
      (fun p hp r hr => hall p (List.mem_cons_of_mem _ hp) r hr)]
    simp [totalRecords]
    omega

/-- C1: ingestion upsert is idempotent — re-running the storage loop over an
identical input mapping, starting from the rows the first run produced,
leaves the persisted rows unchanged, stores 0 records, and skips the full
batch size. -/
theorem C1_idempotent (db : List Record)
    (items : List (String × List Record)) :
    fetch_and_store_loop (fetch_and_store_loop db items 0 0).1 items 0 0 =
      ((fetch_and_store_loop db items 0 0).1, 0, totalRecords items) := by
  have h := fetch_and_store_loop_all_present items
    (fetch_and_store_loop db items 0 0).1 0 0
    (fun p hp r hr => fetch_and_store_loop_hasKey items db 0 0 p hp r hr)
  simpa using h

/-- No two rows share the same `(symbol, date)` key — the property enforced
by the unique index `idx_symbol_date` (`database.py` lines 32–34). -/
def uniqKeys (db : List Record) : Prop :=
  db.Pairwise (fun a b => ¬(a.symbol = b.symbol ∧ a.date = b.date))

/-- Helper: a negative existence probe means no visible row has the key. -/
theorem hasKey_false_iff (db : List Record) (symbol : String) (date : Nat) :
    hasKey db symbol date = false ↔
      ∀ a ∈ db, ¬(a.symbol = symbol ∧ a.date = date) := by
  simp [hasKey, List.any_eq_true, not_exists]

/-- Helper: the upsert loop preserves key uniqueness of the visible rows. -/
theorem upsertLoop_uniq (records : List Record) :
    ∀ (db : List Record) (stored skipped : Nat), uniqKeys db →
      uniqKeys (upsertLoop db records stored skipped).1 := by
  induction records with
  | nil => intro db stored skipped h; simpa [upsertLoop] using h
  | cons r rest ih =>
    intro db stored skipped h
    by_cases hk : hasKey db r.symbol r.date
    · rw [upsertLoop, if_pos hk]
      exact ih db stored (skipped + 1) h
    · rw [upsertLoop, if_neg hk]
      apply ih (db ++ [r]) (stored + 1) skipped
      rw [uniqKeys, List.pairwise_append]
      refine ⟨h, List.pairwise_singleton _ r, ?_⟩
      intro a ha b hb
      have hb2 : b = r := List.mem_singleton.mp hb
      rw [hb2]
      exact (hasKey_false_iff db r.symbol r.date).mp
        (Bool.not_eq_true _ ▸ hk) a ha

/-- C2: every storage run preserves the uniqueness invariant — starting from
rows with pairwise-distinct `(symbol, date)` keys, the rows after the run
still have pairwise-distinct keys — and never mutates or removes an existing
row (the final rows extend the initial rows; an existing key is only ever
skipped). -/
theorem C2_uniqueness (db : List Record)
    (items : List (String × List Record)) (h : uniqKeys db) :
    uniqKeys (fetch_and_store_loop db items 0 0).1 ∧
    ∃ t, (fetch_and_store_loop db items 0 0).1 = db ++ t := by
  refine ⟨?_, fetch_and_store_loop_grows items db 0 0⟩
  suffices hgen : ∀ (items2 : List (String × List Record)) (db2 : List Record)
      (stored skipped : Nat), uniqKeys db2 →
      uniqKeys (fetch_and_store_loop db2 items2 stored skipped).1 by
    exact hgen items db 0 0 h
  intro items2
  induction items2 with
  | nil => intro db2 stored skipped h2; simpa [fetch_and_store_loop] using h2
  | cons q rest ih =>
    intro db2 stored skipped h2
    rcases q with ⟨sym, records⟩
    rw [fetch_and_store_loop]
    exact ih _ _ _ (upsertLoop_uniq records db2 stored skipped h2)

/-- Concrete rows for the C2 witness: a store holding one AAPL row, and a
batch that re-sends that row plus a new MSFT row. -/
def dbC2 : List Record :=
  [{ symbol := "AAPL", date := 1, open_price := 1, high_price := 2,
     low_price := 1, close_price := 2, volume := 3, created_at := 0 }]

/-- Input mapping for the C2 witness. -/
def itemsC2 : List (String × List Record) :=
  [("AAPL",
    [{ symbol := "AAPL", date := 1, open_price := 1, high_price := 2,
       low_price := 1, close_price := 2, volume := 3, created_at := 0 },
     { symbol := "MSFT", date := 1, open_price := 4, high_price := 5,
       low_price := 4, close_price := 5, volume := 6, created_at := 0 }])]

/-- C2 witness: the concrete run keeps the keys pairwise distinct. -/
theorem C2_uniqueness_witness :
    uniqKeys dbC2 ∧ uniqKeys (fetch_and_store_loop dbC2 itemsC2 0 0).1 :=
  ⟨by unfold uniqKeys; decide,
   (C2_uniqueness dbC2 itemsC2 (by unfold uniqKeys; decide)).1⟩

/-- Helper: the storage phase's two counters advance by exactly the total
batch size. -/
theorem fetch_and_store_loop_counts (items : List (String × List Record)) :
    ∀ (db : List Record) (stored skipped : Nat),
      (fetch_and_store_loop db items stored skipped).2.1 +
        (fetch_and_store_loop db items stored skipped).2.2 =
        stored + skipped + totalRecords items := by
  induction items with
  | nil => intro db stored skipped; simp [fetch_and_store_loop, totalRecords]
  | cons q rest ih =>
    intro db stored skipped
    rcases q with ⟨sym, records⟩
    rw [fetch_and_store_loop, ih]
    have h := upsertLoop_counts records db stored skipped
    simp only [totalRecords, List.map_cons, List.sum_cons] at *
    omega

/-- C10: when the storage phase completes without a persistence error, the
reported stored count plus the reported skipped count equals the total
number of parsed records across all symbols of the input mapping. -/
theorem C10_upsert_accounting (db : List Record)
    (items : List (String × List Record)) :
    (fetch_and_store_loop db items 0 0).2.1 +
      (fetch_and_store_loop db items 0 0).2.2 = totalRecords items := by
  simpa using fetch_and_store_loop_counts items db 0 0

/-- Helper: if the commit ending the `i`-th remaining batch is the first to
fail, the storage phase returns `False` with exactly the rows committed by
the fully successful processing of the first `i` batches — the failing
batch's pending rows are rolled back. -/
theorem failable_prefix (commitOk : Nat → Bool)
    (items : List (String × List Record)) :
    ∀ (n i : Nat) (db : List Record) (stored skipped : Nat),
      (∀ j, j < i → commitOk (n + j) = true) → commitOk (n + i) = false →
      i < items.length →
      fetch_and_store_failable commitOk db n items stored skipped =
        .failed (fetch_and_store_loop db (items.take i) stored skipped).1 := by
  induction items with
  | nil => intro n i db stored skipped _ _ h3; simp at h3
  | cons q rest ih =>
    intro n i db stored skipped h1 h2 h3
    rcases q with ⟨sym, records⟩
    cases i with
    | zero =>
      have hn : commitOk n = false := by simpa using h2
      rw [fetch_and_store_failable]
      simp only [hn, if_false, Bool.false_eq_true]
      simp [fetch_and_store_loop]
    | succ j =>
      have hn : commitOk n = true := by
        have := h1 0 (Nat.succ_pos j)
        simpa using this
      rw [fetch_and_store_failable]
      simp only [hn, if_true]
      have h1' : ∀ j', j' < j → commitOk (n + 1 + j') = true := by
        intro j' hj'
        have := h1 (j' + 1) (by omega)
        have he : n + (j' + 1) = n + 1 + j' := by omega
        rw [he] at this
        exact this
      have h2' : commitOk (n + 1 + j) = false := by
        have he : n + (j + 1) = n + 1 + j := by omega
        rw [he] at h2
        exact h2
      have h3' : j < rest.length := by
        simp only [List.length_cons] at h3
        omega
      rw [ih (n + 1) j _ _ _ h1' h2' h3']
      rw [List.take_succ_cons, fetch_and_store_loop]

/-- C3 counterexample: a run over five one-record batches whose third commit
fails. The failure happens during the Ingest phase, with setup successful,
yet the run returns `False` (the process exits nonzero and the report phase
is skipped) — refuting the part of the claim that a persistence failure is
fatal only when raised during Setup's schema step.  The result also shows
the first two symbols' rows persisted. -/
theorem C3_counterexample :
    runPipeline true
      (fetch_and_store_failable (fun i => decide (i ≠ 2)) [] 0
        [("JPM", [{ symbol := "JPM", date := 1, open_price := 1, high_price := 1,
                    low_price := 1, close_price := 1, volume := 1, created_at := 0 }]),
         ("BAC", [{ symbol := "BAC", date := 1, open_price := 2, high_price := 2,
                    low_price := 2, close_price := 2, volume := 2, created_at := 0 }]),
         ("WFC", [{ symbol := "WFC", date := 1, open_price := 3, high_price := 3,
                    low_price := 3, close_price := 3, volume := 3, created_at := 0 }]),
         ("GS", [{ symbol := "GS", date := 1, open_price := 4, high_price := 4,
                   low_price := 4, close_price := 4, volume := 4, created_at := 0 }]),
         ("MS", [{ symbol := "MS", date := 1, open_price := 5, high_price := 5,
                   low_price := 5, close_price := 5, volume := 5, created_at := 0 }])]
        0 0) = false ∧
    fetch_and_store_failable (fun i => decide (i ≠ 2)) [] 0
      [("JPM", [{ symbol := "JPM", date := 1, open_price := 1, high_price := 1,
                  low_price := 1, close_price := 1, volume := 1, created_at := 0 }]),
       ("BAC", [{ symbol := "BAC", date := 1, open_price := 2, high_price := 2,
                  low_price := 2, close_price := 2, volume := 2, created_at := 0 }]),
       ("WFC", [{ symbol := "WFC", date := 1, open_price := 3, high_price := 3,
                  low_price := 3, close_price := 3, volume := 3, created_at := 0 }]),
       ("GS", [{ symbol := "GS", date := 1, open_price := 4, high_price := 4,
                 low_price := 4, close_price := 4, volume := 4, created_at := 0 }]),
       ("MS", [{ symbol := "MS", date := 1, open_price := 5, high_price := 5,
                 low_price := 5, close_price := 5, volume := 5, created_at := 0 }])]
      0 0 =
      .failed
        [{ symbol := "JPM", date := 1, open_price := 1, high_price := 1,
           low_price := 1, close_price := 1, volume := 1, created_at := 0 },
         { symbol := "BAC", date := 1, open_price := 2, high_price := 2,
           low_price := 2, close_price := 2, volume := 2, created_at := 0 }] :=
  ⟨by decide, by decide⟩

/-- C3 amended: when the commit for the `i`-th symbol's batch is the first
to fail, the storage phase rolls back only that batch's pending inserts —
the rows committed for the earlier symbols remain persisted exactly as a
failure-free run over those symbols would leave them — but the failure is
fatal to the run even though it is raised during the Ingest phase, not only
during Setup: `fetch_and_store_data` returns `False` and `run` aborts. -/
theorem C3_partial_durability (commitOk : Nat → Bool) (db : List Record)
    (items : List (String × List Record)) (i : Nat)
    (h1 : ∀ j, j < i → commitOk j = true) (h2 : commitOk i = false)
    (h3 : i < items.length) :
    fetch_and_store_failable commitOk db 0 items 0 0 =
      .failed (fetch_and_store_loop db (items.take i) 0 0).1 ∧
    runPipeline true (fetch_and_store_failable commitOk db 0 items 0 0) = false := by
  have h := failable_prefix commitOk items 0 i db 0 0
    (fun j hj => by simpa using h1 j hj) (by simpa using h2) h3
  exact ⟨h, by rw [h]; rfl⟩

/-- Input mapping for the C3 witness: two one-record batches. -/
def itemsC3W : List (String × List Record) :=
  [("JPM", [{ symbol := "JPM", date := 1, open_price := 1, high_price := 1,
              low_price := 1, close_price := 1, volume := 1, created_at := 0 }]),
   ("BAC", [{ symbol := "BAC", date := 1, open_price := 2, high_price := 2,
              low_price := 2, close_price := 2, volume := 2, created_at := 0 }])]

/-- C3 witness: with the second of two commits failing, the first symbol's
row stays persisted and the run returns `False`. -/
theorem C3_partial_durability_witness :
    (∀ j, j < 1 → (fun i => decide (i ≠ 1)) j = true) ∧
    (fun i => decide (i ≠ 1)) 1 = false ∧ 1 < itemsC3W.length ∧
    fetch_and_store_failable (fun i => decide (i ≠ 1)) [] 0 itemsC3W 0 0 =
      .failed (fetch_and_store_loop [] (itemsC3W.take 1) 0 0).1 ∧
    runPipeline true
      (fetch_and_store_failable (fun i => decide (i ≠ 1)) [] 0 itemsC3W 0 0) =
      false := by
  refine ⟨by decide, by decide, by decide, ?_, ?_⟩
  · exact (C3_partial_durability (fun i => decide (i ≠ 1)) [] itemsC3W 1
      (by decide) (by decide) (by decide)).1
  · exact (C3_partial_durability (fun i => decide (i ≠ 1)) [] itemsC3W 1
      (by decide) (by decide) (by decide)).2

/-- The `ORDER BY date DESC` comparison of the report queries
(`main.py` lines 108–110 and 121–123): row `a` sorts before row `b` when its
date is at least `b`'s. -/
def dateDesc : Record → Record → Prop := fun a b => b.date ≤ a.date

instance : DecidableRel dateDesc := fun a b => Nat.decLe b.date a.date

instance : IsTotal Record dateDesc :=
  ⟨fun a b => (Nat.le_total a.date b.date).symm⟩

instance : IsTrans Record dateDesc :=
  ⟨fun _ _ _ hab hbc => Nat.le_trans hbc hab⟩

/-- The rows of one symbol, `session.query(StockPrice).filter_by(symbol=...)`
(`main.py` line 121). -/
def symbolRows (db : List Record) (symbol : String) : List Record :=
  db.filter (fun r => r.symbol == symbol)

/-- `...order_by(StockPrice.date.desc()).limit(2).all()` (`main.py` lines
121–123): the symbol's rows sorted newest-first, truncated to two. -/
def latestTwo (db : List Record) (symbol : String) : List Record :=
  (List.insertionSort dateDesc (symbolRows db symbol)).take 2

/-- The performance-metrics computation of `generate_analytics_report`
(`main.py` lines 125–130): when exactly two rows come back, the day-over-day
change `current - previous` and the percent change
`change / previous * 100`; with fewer than two persisted points, no metric. -/
def dayChange (db : List Record) (symbol : String) : Option (ℚ × ℚ) :=
  match latestTwo db symbol with
  | [current, previous] =>
      some (current.close_price - previous.close_price,
            (current.close_price - previous.close_price) /
              previous.close_price * 100)
  | _ => none

/-- C8: for a store with unique keys and a symbol whose two most recent rows
are `cur` and `prev`, the report computes change `cur.close − prev.close`
and percent change `change / prev.close * 100`; the two rows are ordered by
calendar date, not fetch order — `prev` is strictly older than `cur`, every
persisted row of the symbol is no newer than `cur`, and every such row other
than `cur` is no newer than `prev`. -/
theorem C8_day_change (db : List Record) (symbol : String) (cur prev : Record)
    (hu : uniqKeys db) (h : latestTwo db symbol = [cur, prev]) :
    dayChange db symbol =
      some (cur.close_price - prev.close_price,
            (cur.close_price - prev.close_price) / prev.close_price * 100) ∧
    prev.date < cur.date ∧
    ∀ r ∈ symbolRows db symbol,
      r.date ≤ cur.date ∧ (r ≠ cur → r.date ≤ prev.date) := by
  refine ⟨by simp [dayChange, h], ?_⟩
  have hperm := List.perm_insertionSort dateDesc (symbolRows db symbol)
  have hsorted := List.sorted_insertionSort dateDesc (symbolRows db symbol)
  rcases hL : List.insertionSort dateDesc (symbolRows db symbol) with
    _ | ⟨a, _ | ⟨b, rest⟩⟩
  · rw [latestTwo, hL] at h; simp at h
  · rw [latestTwo, hL] at h; simp at h
  · rw [latestTwo, hL] at h
    have hab : a = cur ∧ b = prev := by
      simpa using h
    rw [hab.1, hab.2] at hL
    rw [hL] at hperm hsorted
    rw [List.sorted_cons] at hsorted
    rcases hsorted with ⟨hcur, hsorted2⟩
    rw [List.sorted_cons] at hsorted2
    rcases hsorted2 with ⟨hprev, _⟩
    have hmemcur : cur ∈ symbolRows db symbol :=
      hperm.mem_iff.mp (List.mem_cons_self _ _)
    have hmemprev : prev ∈ symbolRows db symbol :=
      hperm.mem_iff.mp (List.mem_cons_of_mem _ (List.mem_cons_self _ _))
    have hsymcur : cur.symbol = symbol := by
      have := (List.mem_filter.mp hmemcur).2
      simpa [beq_iff_eq] using this
    have hsymprev : prev.symbol = symbol := by
      have := (List.mem_filter.mp hmemprev).2
      simpa [beq_iff_eq] using this
    have hpw : (cur :: prev :: rest).Pairwise
        (fun x y => ¬(x.symbol = y.symbol ∧ x.date = y.date)) := by
      have hdb : db.Pairwise
          (fun x y => ¬(x.symbol = y.symbol ∧ x.date = y.date)) := hu
      have hsub : (symbolRows db symbol).Sublist db := List.filter_sublist db
      have hrows := hdb.sublist hsub
      exact (hperm.pairwise_iff
        (fun {x y} hxy => fun hc => hxy ⟨hc.1.symm, hc.2.symm⟩)).mpr hrows
    have hne : cur.date ≠ prev.date := by
      intro he
      exact (List.pairwise_cons.mp hpw).1 prev
        (List.mem_cons_self _ _) ⟨hsymcur.trans hsymprev.symm, he⟩
    have hle : prev.date ≤ cur.date := hcur prev (List.mem_cons_self _ _)
    refine ⟨Nat.lt_of_le_of_ne hle (fun he => hne he.symm), ?_⟩
    intro r hr
    have hrmem : r ∈ cur :: prev :: rest := hperm.mem_iff.mpr hr
    rcases List.mem_cons.mp hrmem with rfl | hrmem2
    · exact ⟨Nat.le_refl _, fun hc => absurd rfl hc⟩
    · rcases List.mem_cons.mp hrmem2 with rfl | hrmem3
      · exact ⟨hle, fun _ => Nat.le_refl _⟩
      · have hrp : r.date ≤ prev.date := hprev r hrmem3
        exact ⟨Nat.le_trans hrp hle, fun _ => hrp⟩

/-- Older persisted point for the C8 witness: close 150 on the earlier
date. -/
def recC8a : Record :=
  { symbol := "AAPL", date := 20240101, open_price := 149, high_price := 151,
    low_price := 148, close_price := 150, volume := 1000, created_at := 0 }

/-- Newer persisted point for the C8 witness: close 153 on the later
date. -/
def recC8b : Record :=
  { symbol := "AAPL", date := 20240102, open_price := 150, high_price := 154,
    low_price := 150, close_price := 153, volume := 1100, created_at := 0 }

/-- Store for the C8 witness, holding the two points in oldest-first insert
order, so the newest-first result must come from the date ordering. -/
def dbC8 : List Record := [recC8a, recC8b]

/-- C8 witness: for closes 150.00 and 153.00 on consecutive dates the report
computes change +3.00 and percent change +2.00, with the two rows taken in
calendar order even though the older row was inserted first. -/
theorem C8_day_change_witness :
    uniqKeys dbC8 ∧ latestTwo dbC8 "AAPL" = [recC8b, recC8a] ∧
    dayChange dbC8 "AAPL" = some (3, 2) := by
  refine ⟨by unfold uniqKeys; decide, by decide, ?_⟩
  have h := (C8_day_change dbC8 "AAPL" recC8b recC8a
    (by unfold uniqKeys; decide) (by decide)).1
  rw [h]
  norm_num [recC8a, recC8b]

end Pipeline
